import Mathlib

/-! gocache: an in-process key/value cache with per-entry expiration.

Shallow embedding of `src/app.go`.

* The Go map `map[string]Item` is an association list with unique keys
  (`AList`); `c.items[k] = it` is `AList.insert`, `delete(c.items, k)` is
  `AList.erase`, `c.items[k]` is `AList.lookup`.
* `interface{}` values are `Option V`, with `none` for Go's `nil`.
* `int64` and `time.Duration` values are integers; the one place where the
  source does arithmetic on them, `time.Now().Add(d).UnixNano()`, is reduced
  into the `int64` range by `wrapInt64`.
* Every read of the clock, `time.Now().UnixNano()`, is an explicit argument of
  the operation that performs it.
* The mutex, the ticker and the stop channel carry no data of the store and
  are not part of the state of the cache; `gcLoop` is a step function over
  what its `select` receives, a tick or the stop signal.
-/

namespace GoCache

/-- The value of a Go `int64` computation whose mathematical result is `x`:
`x` reduced modulo `2^64` into `[-2^63, 2^63)`. -/
def wrapInt64 (x : Int) : Int :=
  (x + 2 ^ 63) % 2 ^ 64 - 2 ^ 63

/-- The largest `int64`. -/
def maxInt64 : Int := 2 ^ 63 - 1

/-- The smallest `int64`. -/
def minInt64 : Int := -(2 ^ 63)

/-- Membership in the range of `int64`. -/
def isInt64 (x : Int) : Prop := minInt64 ≤ x ∧ x ≤ maxInt64

instance (x : Int) : Decidable (isInt64 x) :=
  inferInstanceAs (Decidable (minInt64 ≤ x ∧ x ≤ maxInt64))

/-- The struct `Item`: the stored object and its expiration instant in
nanoseconds since the epoch, `0` for an entry that never expires. -/
structure Item (V : Type) where
  Object : Option V
  Expiration : Int
deriving DecidableEq, Repr

/-- The method `Item.Expired`, with `now` the value of
`time.Now().UnixNano()`. -/
def Item.Expired {V : Type} (item : Item V) (now : Int) : Bool :=
  if item.Expiration = 0 then
    false
  else
    decide (now > item.Expiration)

/-- The constant `NoExpiration`. -/
def NoExpiration : Int := -1

/-- The constant `DefaultExpiration`. -/
def DefaultExpiration : Int := 0

/-- The struct `Cache`, without its lock and its stop channel. -/
structure Cache (V : Type) where
  defaultExpiration : Int
  items : AList (fun _ : String => Item V)
  gcInterval : Int

/-- Two caches are equal when their fields are, the map being compared entry
by entry. -/
instance {V : Type} [DecidableEq V] : DecidableEq (Cache V) := fun a b =>
  decidable_of_iff
    (a.defaultExpiration = b.defaultExpiration ∧ a.items.entries = b.items.entries ∧
      a.gcInterval = b.gcInterval)
    ⟨fun h => by
      cases a; cases b
      simp only [Cache.mk.injEq]
      exact ⟨h.1, AList.ext h.2.1, h.2.2⟩,
     fun h => by subst h; exact ⟨rfl, rfl, rfl⟩⟩

/-- The method `Cache.delete`: `delete(c.items, k)`. -/
def Cache.delete {V : Type} (c : Cache V) (k : String) : Cache V :=
  { c with items := c.items.erase k }

/-- The method `Cache.DeleteExpired`, with `now` the clock reading taken before
the lock: the loop ranges over the entries of the map and deletes, from the map
being swept, the key of each entry that passes the removal test. -/
def Cache.DeleteExpired {V : Type} (c : Cache V) (now : Int) : Cache V :=
  c.items.entries.foldl
    (fun acc e => if e.2.Expiration > 0 ∧ now > e.2.Expiration then acc.delete e.1 else acc) c

/-- The method `Cache.Set`, with `now` the value of `time.Now().UnixNano()` at
the call of `time.Now()`. `time.Now().Add(d).UnixNano()` is the instant
`now + d` as an `int64` count of nanoseconds: `UnixNano` computes it in `int64`
arithmetic, so a sum outside the `int64` range wraps around. The variable `e`
starts at `0`, the zero value of `int64`. -/
def Cache.Set {V : Type} (c : Cache V) (k : String) (v : Option V) (d : Int)
    (now : Int) : Cache V :=
  let d := if d = DefaultExpiration then c.defaultExpiration else d
  let e : Int := if d > 0 then wrapInt64 (now + d) else 0
  { c with items := c.items.insert k { Object := v, Expiration := e } }

/-- The unlocked helper `Cache.set`: the body of `Cache.Set` without the
lock. -/
def Cache.set {V : Type} (c : Cache V) (k : String) (v : Option V) (d : Int)
    (now : Int) : Cache V :=
  let d := if d = DefaultExpiration then c.defaultExpiration else d
  let e : Int := if d > 0 then wrapInt64 (now + d) else 0
  { c with items := c.items.insert k { Object := v, Expiration := e } }

/-- The unlocked helper `Cache.get`: the cache after the call and the pair
the call returns. -/
def Cache.get {V : Type} (c : Cache V) (k : String) (now : Int) :
    Cache V × (Option V × Bool) :=
  match c.items.lookup k with
  | none => (c, (none, false))
  | some item =>
    if item.Expired now then (c, (none, false)) else (c, (item.Object, true))

/-- The method `Cache.Add`: the cache after the call and the error it returns
(`none` for Go's `nil`). `tGet` is the clock reading of the existence check,
`tSet` the one of the insertion that follows it. -/
def Cache.Add {V : Type} (c : Cache V) (k : String) (v : Option V) (d : Int)
    (tGet tSet : Int) : Cache V × Option String :=
  let r := c.get k tGet
  if r.2.2 then
    (r.1, some ("Item " ++ k ++ " already exists"))
  else
    (r.1.set k v d tSet, none)

/-- The method `Cache.Get`: the cache after the call and the pair the call
returns. -/
def Cache.Get {V : Type} (c : Cache V) (k : String) (now : Int) :
    Cache V × (Option V × Bool) :=
  match c.items.lookup k with
  | none => (c, (none, false))
  | some item =>
    if item.Expired now then (c, (none, false)) else (c, (item.Object, true))

/-- A cache with no entries. -/
def Cache.empty (V : Type) (defaultExpiration gcInterval : Int) : Cache V :=
  { defaultExpiration := defaultExpiration, items := ∅, gcInterval := gcInterval }

/-- One call of the public interface, with the clock readings it takes. -/
inductive Op (V : Type) where
  | Set (k : String) (v : Option V) (d now : Int)
  | Add (k : String) (v : Option V) (d tGet tSet : Int)
  | Get (k : String) (now : Int)
  | DeleteExpired (now : Int)

/-- The cache after one call. -/
def Op.run {V : Type} : Op V → Cache V → Cache V
  | .Set k v d now, c => c.Set k v d now
  | .Add k v d tGet tSet, c => (c.Add k v d tGet tSet).1
  | .Get k now, c => (c.Get k now).1
  | .DeleteExpired now, c => c.DeleteExpired now

/-- Whether the call is a `Set` or an `Add` on the key `k`. -/
def Op.writesKey {V : Type} (k : String) : Op V → Bool
  | .Set k' _ _ _ => decide (k' = k)
  | .Add k' _ _ _ _ => decide (k' = k)
  | .Get _ _ => false
  | .DeleteExpired _ => false

/-- The cache after a sequence of calls, performed from left to right. -/
def runOps {V : Type} (ops : List (Op V)) (c : Cache V) : Cache V :=
  ops.foldl (fun acc op => op.run acc) c

/-- The TTL that `Set` and `set` work with after their first `if`:
`c.defaultExpiration` when `d` is `DefaultExpiration`, and `d` otherwise. -/
def effectiveTTL {V : Type} (c : Cache V) (d : Int) : Int :=
  if d = DefaultExpiration then c.defaultExpiration else d

/-- The record of the most recent write of the key `k` after the call `op` on
the cache `c`: the clock reading and the TTL, after the substitution of the
default, of `op` when it is a `Set` on `k`, or an `Add` on `k` that returns
`nil` (its clock reading being the one of its insertion); the record `prev`
from before the call otherwise. -/
def noteWrite {V : Type} (k : String) (c : Cache V) (prev : Option (Int × Int)) :
    Op V → Option (Int × Int)
  | .Set k' _ d now => if k' = k then some (now, effectiveTTL c d) else prev
  | .Add k' v d tGet tSet =>
    if k' = k ∧ (c.Add k' v d tGet tSet).2 = none then some (tSet, effectiveTTL c d)
    else prev
  | .Get _ _ => prev
  | .DeleteExpired _ => prev

/-- The clock reading and the TTL, after the substitution of the default, of
the most recent successful `Set` or `Add` on the key `k` in a sequence of calls
performed from the cache `c`; `prev` when the sequence has none. -/
def lastWrite {V : Type} (k : String) :
    List (Op V) → Cache V → Option (Int × Int) → Option (Int × Int)
  | [], _, prev => prev
  | op :: ops, c, prev => lastWrite k ops (op.run c) (noteWrite k c prev op)

/-- For a `Set` or an `Add` of a cache whose default TTL is `dflt`: the clock
reading of the insertion is not negative and, when the TTL after the
substitution of the default is positive, clock reading plus TTL does not exceed
the largest `int64`. The other calls insert nothing. -/
def Op.insertsInRange {V : Type} (dflt : Int) : Op V → Prop
  | .Set _ _ d now =>
    0 ≤ now ∧ (0 < (if d = DefaultExpiration then dflt else d) →
      now + (if d = DefaultExpiration then dflt else d) ≤ maxInt64)
  | .Add _ _ d _ tSet =>
    0 ≤ tSet ∧ (0 < (if d = DefaultExpiration then dflt else d) →
      tSet + (if d = DefaultExpiration then dflt else d) ≤ maxInt64)
  | .Get _ _ => True
  | .DeleteExpired _ => True

instance {V : Type} (dflt : Int) : (op : Op V) → Decidable (op.insertsInRange dflt)
  | .Set _ _ d now =>
    inferInstanceAs (Decidable (0 ≤ now ∧ (0 < (if d = DefaultExpiration then dflt else d) →
      now + (if d = DefaultExpiration then dflt else d) ≤ maxInt64)))
  | .Add _ _ d _ tSet =>
    inferInstanceAs (Decidable (0 ≤ tSet ∧ (0 < (if d = DefaultExpiration then dflt else d) →
      tSet + (if d = DefaultExpiration then dflt else d) ≤ maxInt64)))
  | .Get _ _ => inferInstanceAs (Decidable True)
  | .DeleteExpired _ => inferInstanceAs (Decidable True)

/-- What the `select` of `gcLoop` receives: a tick of the ticker, with the clock
reading that the call of `DeleteExpired` takes, or the stop signal. -/
inductive GcEvent where
  | tick (now : Int)
  | stop
deriving DecidableEq

/-- Whether the event is a tick. -/
def GcEvent.isTick : GcEvent → Bool
  | .tick _ => true
  | .stop => false

/-- Where `gcLoop` is: in its `for` loop, or returned. -/
inductive GcPhase where
  | running
  | stopped
deriving DecidableEq

/-- The state of `gcLoop`: its phase, the cache it sweeps, and the number of
calls of `DeleteExpired` it has made. -/
structure GcState (V : Type) where
  phase : GcPhase
  cache : Cache V
  sweeps : Nat

/-- One round of the `for` loop of `gcLoop`: on a tick, `c.DeleteExpired()`; on
the stop signal, `ticker.Stop()` and `return`. Once the function has returned
nothing is received any more. -/
def gcStep {V : Type} (s : GcState V) : GcEvent → GcState V
  | .tick now =>
    match s.phase with
    | .running => { s with cache := s.cache.DeleteExpired now, sweeps := s.sweeps + 1 }
    | .stopped => s
  | .stop =>
    match s.phase with
    | .running => { s with phase := .stopped }
    | .stopped => s

/-- The state of `gcLoop` after a sequence of events. -/
def gcRun {V : Type} (evs : List GcEvent) (s : GcState V) : GcState V :=
  evs.foldl gcStep s

/-- The method `Cache.gcLoop` on a sequence of events. `time.NewTicker` panics
when `c.gcInterval` is not positive, which is the result `none`; otherwise the
loop starts in the running phase. -/
def Cache.gcLoop {V : Type} (c : Cache V) (evs : List GcEvent) : Option (GcState V) :=
  if c.gcInterval > 0 then
    some (gcRun evs { phase := .running, cache := c, sweeps := 0 })
  else
    none

/-! ## Auxiliary facts -/

section Aux

variable {V : Type}

theorem wrapInt64_of_isInt64 {x : Int} (h : isInt64 x) : wrapInt64 x = x := by
  unfold isInt64 minInt64 maxInt64 at h
  unfold wrapInt64
  omega

theorem wrapInt64_overflow {x : Int} (h1 : maxInt64 < x) (h2 : x < 2 ^ 64) :
    wrapInt64 x = x - 2 ^ 64 := by
  unfold maxInt64 at h1
  unfold wrapInt64
  omega

theorem Cache.ext_entries {a b : Cache V} (h1 : a.defaultExpiration = b.defaultExpiration)
    (h2 : a.items.entries = b.items.entries) (h3 : a.gcInterval = b.gcInterval) : a = b := by
  cases a; cases b
  simp only [Cache.mk.injEq]
  exact ⟨h1, AList.ext h2, h3⟩

theorem Cache.Get_fst (c : Cache V) (k : String) (now : Int) : (c.Get k now).1 = c := by
  unfold Cache.Get
  split
  · rfl
  · split <;> rfl

theorem Cache.get_eq_Get (c : Cache V) (k : String) (now : Int) : c.get k now = c.Get k now :=
  rfl

theorem Cache.set_eq_Set (c : Cache V) (k : String) (v : Option V) (d now : Int) :
    c.set k v d now = c.Set k v d now :=
  rfl

theorem Cache.Get_snd_of_lookup_none {c : Cache V} {k : String} (now : Int)
    (h : c.items.lookup k = none) : (c.Get k now).2 = (none, false) := by
  unfold Cache.Get
  rw [h]

theorem Cache.Get_snd_of_lookup_some {c : Cache V} {k : String} {it : Item V} (now : Int)
    (h : c.items.lookup k = some it) :
    (c.Get k now).2 = if it.Expired now then (none, false) else (it.Object, true) := by
  unfold Cache.Get
  rw [h]
  dsimp only
  split <;> rfl

theorem Item.Expired_eq_true_iff (it : Item V) (now : Int) :
    it.Expired now = true ↔ it.Expiration ≠ 0 ∧ it.Expiration < now := by
  unfold Item.Expired
  by_cases h : it.Expiration = 0
  · simp [h]
  · simp [h]

theorem Item.Expired_eq_false_iff (it : Item V) (now : Int) :
    it.Expired now = false ↔ it.Expiration = 0 ∨ now ≤ it.Expiration := by
  unfold Item.Expired
  by_cases h : it.Expiration = 0
  · simp [h]
  · simp [h]

theorem Cache.delete_entries (c : Cache V) (k : String) :
    (c.delete k).items.entries = c.items.entries.kerase k :=
  rfl

theorem sweep_fold_fields (now : Int) (l : List (Sigma fun _ : String => Item V)) :
    ∀ acc : Cache V,
      (l.foldl (fun acc e =>
          if e.2.Expiration > 0 ∧ now > e.2.Expiration then acc.delete e.1 else acc)
        acc).defaultExpiration = acc.defaultExpiration ∧
      (l.foldl (fun acc e =>
          if e.2.Expiration > 0 ∧ now > e.2.Expiration then acc.delete e.1 else acc)
        acc).gcInterval = acc.gcInterval := by
  induction l with
  | nil => intro acc; exact ⟨rfl, rfl⟩
  | cons e l ih =>
    intro acc
    rw [List.foldl_cons]
    by_cases h : e.2.Expiration > 0 ∧ now > e.2.Expiration
    · rw [if_pos h]
      exact ih (acc.delete e.1)
    · rw [if_neg h]
      exact ih acc

theorem sweep_fold_entries (now : Int) (l : List (Sigma fun _ : String => Item V)) :
    ∀ (done : List (Sigma fun _ : String => Item V)) (acc : Cache V),
      acc.items.entries = done ++ l →
      (l.foldl (fun acc e =>
          if e.2.Expiration > 0 ∧ now > e.2.Expiration then acc.delete e.1 else acc)
        acc).items.entries =
        done ++ l.filter (fun e => !decide (e.2.Expiration > 0 ∧ now > e.2.Expiration)) := by
  induction l with
  | nil =>
    intro done acc hacc
    simpa using hacc
  | cons e l ih =>
    intro done acc hacc
    rw [List.foldl_cons]
    by_cases h : e.2.Expiration > 0 ∧ now > e.2.Expiration
    · rw [if_pos h]
      have hnd : (done ++ e :: l).NodupKeys := hacc ▸ acc.items.nodupKeys
      have hnot : e.1 ∉ done.keys := by
        intro hmem
        have hk : (done ++ e :: l).keys = done.keys ++ e.1 :: l.keys := by
          simp [List.keys]
        have hnd2 : (done.keys ++ e.1 :: l.keys).Nodup := hk ▸ hnd
        rw [List.nodup_append] at hnd2
        exact hnd2.2.2 hmem (List.mem_cons_self _ _)
      have hdel : (acc.delete e.1).items.entries = done ++ l := by
        rw [Cache.delete_entries, hacc, List.kerase_append_right hnot,
          List.kerase_cons_eq rfl]
      rw [ih done (acc.delete e.1) hdel, List.filter_cons_of_neg (by simp [h])]
    · rw [if_neg h]
      have hacc2 : acc.items.entries = (done ++ [e]) ++ l := by
        rw [hacc]; simp
      rw [ih (done ++ [e]) acc hacc2, List.filter_cons_of_pos (by simp [h])]
      simp

theorem Cache.DeleteExpired_entries (c : Cache V) (now : Int) :
    (c.DeleteExpired now).items.entries =
      c.items.entries.filter (fun e => !decide (e.2.Expiration > 0 ∧ now > e.2.Expiration)) := by
  have h := sweep_fold_entries now c.items.entries [] c (by simp)
  simpa [Cache.DeleteExpired] using h

theorem Cache.DeleteExpired_defaultExpiration (c : Cache V) (now : Int) :
    (c.DeleteExpired now).defaultExpiration = c.defaultExpiration :=
  (sweep_fold_fields now c.items.entries c).1

theorem Cache.DeleteExpired_gcInterval (c : Cache V) (now : Int) :
    (c.DeleteExpired now).gcInterval = c.gcInterval :=
  (sweep_fold_fields now c.items.entries c).2

theorem dlookup_filter_value (p : Item V → Bool) (k : String) :
    ∀ l : List (Sigma fun _ : String => Item V), l.NodupKeys →
      List.dlookup k (l.filter (fun e => p e.2)) = (List.dlookup k l).filter p := by
  intro l
  induction l with
  | nil => intro _; rfl
  | cons e l ih =>
    intro hnd
    obtain ⟨a, b⟩ := e
    have hl : l.NodupKeys := List.nodupKeys_of_nodupKeys_cons hnd
    have ha : a ∉ l.keys := List.not_mem_keys_of_nodupKeys_cons hnd
    by_cases hk : k = a
    · subst hk
      rw [List.dlookup_cons_eq]
      by_cases hp : p b = true
      · rw [List.filter_cons_of_pos (by simpa using hp), List.dlookup_cons_eq]
        simp [Option.filter, hp]
      · rw [List.filter_cons_of_neg (by simpa using hp), ih hl,
          List.dlookup_eq_none.mpr ha]
        simp [Option.filter, hp]
    · rw [List.dlookup_cons_ne _ _ hk]
      by_cases hp : p b = true
      · rw [List.filter_cons_of_pos (by simpa using hp), List.dlookup_cons_ne _ _ hk]
        exact ih hl
      · rw [List.filter_cons_of_neg (by simpa using hp)]
        exact ih hl

theorem Cache.DeleteExpired_lookup (c : Cache V) (now : Int) (k : String) :
    (c.DeleteExpired now).items.lookup k =
      (c.items.lookup k).filter
        (fun it => !decide (it.Expiration > 0 ∧ now > it.Expiration)) := by
  unfold AList.lookup
  rw [Cache.DeleteExpired_entries]
  exact dlookup_filter_value
    (fun it => !decide (it.Expiration > 0 ∧ now > it.Expiration)) k _ c.items.nodupKeys

theorem Cache.Set_lookup_self (c : Cache V) (k : String) (v : Option V) (d now : Int) :
    (c.Set k v d now).items.lookup k =
      some ⟨v, if effectiveTTL c d > 0 then wrapInt64 (now + effectiveTTL c d) else 0⟩ := by
  unfold Cache.Set effectiveTTL
  simp only [AList.lookup_insert]

theorem Cache.Set_lookup_ne (c : Cache V) {k k' : String} (v : Option V) (d now : Int)
    (h : k' ≠ k) : (c.Set k v d now).items.lookup k' = c.items.lookup k' := by
  unfold Cache.Set
  simp only [AList.lookup_insert_ne h]

theorem Cache.Add_eq (c : Cache V) (k : String) (v : Option V) (d tGet tSet : Int) :
    c.Add k v d tGet tSet =
      if (c.Get k tGet).2.2 = true then (c, some ("Item " ++ k ++ " already exists"))
      else (c.Set k v d tSet, none) := by
  unfold Cache.Add
  simp only [Cache.get_eq_Get, Cache.Get_fst, Cache.set_eq_Set]

theorem Cache.Add_lookup_ne (c : Cache V) {k k' : String} (v : Option V) (d tGet tSet : Int)
    (h : k' ≠ k) : (c.Add k v d tGet tSet).1.items.lookup k' = c.items.lookup k' := by
  rw [Cache.Add_eq]
  split
  · rfl
  · exact Cache.Set_lookup_ne c v d tSet h

theorem Op.run_lookup_of_nonpos (op : Op V) (c : Cache V) {k : String} {it : Item V}
    (hw : op.writesKey k = false) (hk : c.items.lookup k = some it)
    (he : it.Expiration ≤ 0) : (op.run c).items.lookup k = some it := by
  cases op with
  | Set k' v d now =>
    have hne : k ≠ k' := by
      intro h; subst h; simp [Op.writesKey] at hw
    simp only [Op.run]
    rw [Cache.Set_lookup_ne c v d now hne]; exact hk
  | Add k' v d tGet tSet =>
    have hne : k ≠ k' := by
      intro h; subst h; simp [Op.writesKey] at hw
    simp only [Op.run]
    rw [Cache.Add_lookup_ne c v d tGet tSet hne]; exact hk
  | Get k' now =>
    simp only [Op.run, Cache.Get_fst]; exact hk
  | DeleteExpired now =>
    simp only [Op.run]
    rw [Cache.DeleteExpired_lookup, hk]
    have : ¬ (it.Expiration > 0 ∧ now > it.Expiration) := fun h => by omega
    simp [Option.filter, this]

theorem runOps_lookup_of_nonpos (k : String) (it : Item V) (he : it.Expiration ≤ 0) :
    ∀ (ops : List (Op V)) (c : Cache V), (∀ op ∈ ops, op.writesKey k = false) →
      c.items.lookup k = some it → (runOps ops c).items.lookup k = some it := by
  intro ops
  induction ops with
  | nil => intro c _ hk; exact hk
  | cons op ops ih =>
    intro c hw hk
    unfold runOps
    rw [List.foldl_cons]
    exact ih (op.run c) (fun o ho => hw o (List.mem_cons_of_mem _ ho))
      (Op.run_lookup_of_nonpos op c (hw op (List.mem_cons_self _ _)) hk he)

theorem Cache.Add_fst_cases (c : Cache V) (k : String) (v : Option V) (d tGet tSet : Int) :
    ((c.Add k v d tGet tSet).2 ≠ none ∧ (c.Add k v d tGet tSet).1 = c) ∨
    ((c.Add k v d tGet tSet).2 = none ∧ (c.Add k v d tGet tSet).1 = c.Set k v d tSet) := by
  rw [Cache.Add_eq]
  by_cases hf : (c.Get k tGet).2.2 = true
  · rw [if_pos hf]
    exact Or.inl ⟨by simp, rfl⟩
  · rw [if_neg hf]
    exact Or.inr ⟨rfl, rfl⟩

theorem Cache.DeleteExpired_lookup_eq_some_iff (c : Cache V) (now : Int) (k : String)
    (it : Item V) :
    (c.DeleteExpired now).items.lookup k = some it ↔
      c.items.lookup k = some it ∧ ¬ (it.Expiration > 0 ∧ now > it.Expiration) := by
  rw [Cache.DeleteExpired_lookup]
  cases hk : c.items.lookup k with
  | none => simp [Option.filter]
  | some it' =>
    by_cases hp : it'.Expiration > 0 ∧ now > it'.Expiration
    · have hf : Option.filter
          (fun it => !decide (it.Expiration > 0 ∧ now > it.Expiration)) (some it') = none := by
        simp [Option.filter, hp]
      rw [hf]
      constructor
      · intro h; exact absurd h (by simp)
      · rintro ⟨h1, h2⟩
        have : it' = it := Option.some.inj h1
        subst this
        exact absurd hp h2
    · have hf : Option.filter
          (fun it => !decide (it.Expiration > 0 ∧ now > it.Expiration)) (some it') =
          some it' := by
        simp [Option.filter, hp]
      rw [hf]
      constructor
      · intro h
        have : it' = it := Option.some.inj h
        subst this
        exact ⟨rfl, hp⟩
      · rintro ⟨h1, _⟩; exact h1

theorem Op.run_defaultExpiration (op : Op V) (c : Cache V) :
    (op.run c).defaultExpiration = c.defaultExpiration := by
  cases op with
  | Set k v d now => rfl
  | Add k v d tGet tSet =>
    simp only [Op.run]
    rcases Cache.Add_fst_cases c k v d tGet tSet with h | h
    · rw [h.2]
    · rw [h.2]; rfl
  | Get k now => simp only [Op.run, Cache.Get_fst]
  | DeleteExpired now => exact Cache.DeleteExpired_defaultExpiration c now

theorem Op.run_lookup_of_not_writes (op : Op V) (c : Cache V) {k : String}
    (hw : op.writesKey k = false) :
    (op.run c).items.lookup k = c.items.lookup k ∨ (op.run c).items.lookup k = none := by
  cases op with
  | Set k' v d now =>
    have hne : k ≠ k' := by
      intro h; subst h; simp [Op.writesKey] at hw
    exact Or.inl (Cache.Set_lookup_ne c v d now hne)
  | Add k' v d tGet tSet =>
    have hne : k ≠ k' := by
      intro h; subst h; simp [Op.writesKey] at hw
    exact Or.inl (Cache.Add_lookup_ne c v d tGet tSet hne)
  | Get k' now =>
    left
    simp only [Op.run, Cache.Get_fst]
  | DeleteExpired now =>
    simp only [Op.run]
    rw [Cache.DeleteExpired_lookup]
    cases hk : c.items.lookup k with
    | none => left; rfl
    | some it =>
      by_cases hp : it.Expiration > 0 ∧ now > it.Expiration
      · right; simp [Option.filter, hp]
      · left; simp [Option.filter, hp]

theorem runOps_lookup_of_not_writes (k : String) :
    ∀ (ops : List (Op V)) (c : Cache V), (∀ op ∈ ops, op.writesKey k = false) →
      (runOps ops c).items.lookup k = c.items.lookup k ∨
      (runOps ops c).items.lookup k = none := by
  intro ops
  induction ops with
  | nil => intro c _; exact Or.inl rfl
  | cons op ops ih =>
    intro c hw
    have h1 := Op.run_lookup_of_not_writes op c (hw op (List.mem_cons_self _ _))
    have h2 := ih (op.run c) (fun o ho => hw o (List.mem_cons_of_mem _ ho))
    have hr : runOps (op :: ops) c = runOps ops (op.run c) := rfl
    rw [hr]
    rcases h2 with h2 | h2
    · rcases h1 with h1 | h1
      · left; rw [h2, h1]
      · right; rw [h2, h1]
    · right; exact h2

theorem gcRun_of_stopped (evs : List GcEvent) :
    ∀ s : GcState V, s.phase = GcPhase.stopped → gcRun evs s = s := by
  induction evs with
  | nil => intro s _; rfl
  | cons e evs ih =>
    intro s hs
    have hstep : gcStep s e = s := by
      cases e <;> simp [gcStep, hs]
    have hr : gcRun (e :: evs) s = gcRun evs (gcStep s e) := rfl
    rw [hr, hstep]
    exact ih s hs

theorem gcRun_of_running (evs : List GcEvent) :
    ∀ s : GcState V, s.phase = GcPhase.running →
      (gcRun evs s).sweeps = s.sweeps + (evs.takeWhile GcEvent.isTick).length ∧
      ((gcRun evs s).phase = GcPhase.running ↔ ∀ e ∈ evs, e.isTick = true) := by
  induction evs with
  | nil => intro s hs; simp [gcRun, hs]
  | cons e evs ih =>
    intro s hs
    have hr : gcRun (e :: evs) s = gcRun evs (gcStep s e) := rfl
    rw [hr]
    cases e with
    | tick now =>
      have hp : (gcStep s (GcEvent.tick now)).phase = GcPhase.running := by
        simp [gcStep, hs]
      have hn : (gcStep s (GcEvent.tick now)).sweeps = s.sweeps + 1 := by
        simp [gcStep, hs]
      obtain ⟨h1, h2⟩ := ih _ hp
      constructor
      · rw [h1, hn]
        simp [GcEvent.isTick]
        omega
      · rw [h2]
        simp [GcEvent.isTick]
    | stop =>
      have hp : (gcStep s GcEvent.stop).phase = GcPhase.stopped := by
        simp [gcStep, hs]
      have hn : (gcStep s GcEvent.stop).sweeps = s.sweeps := by
        simp [gcStep, hs]
      rw [gcRun_of_stopped evs _ hp]
      constructor
      · rw [hn]
        simp [GcEvent.isTick]
      · rw [hp]
        simp [GcEvent.isTick]

theorem Cache.Set_nonneg (c : Cache V) (k : String) (v : Option V) (d now : Int)
    (hr : (Op.Set k v d now : Op V).insertsInRange c.defaultExpiration)
    (hc : ∀ k' it, c.items.lookup k' = some it → 0 ≤ it.Expiration) :
    ∀ k' it, (c.Set k v d now).items.lookup k' = some it → 0 ≤ it.Expiration := by
  intro k' it hk
  by_cases hkk : k' = k
  · subst hkk
    rw [Cache.Set_lookup_self] at hk
    have hit := Option.some.inj hk
    rw [← hit]
    show 0 ≤ (if effectiveTTL c d > 0 then wrapInt64 (now + effectiveTTL c d) else 0)
    obtain ⟨h0, h1⟩ := hr
    by_cases hp : effectiveTTL c d > 0
    · rw [if_pos hp]
      have hle : now + effectiveTTL c d ≤ maxInt64 := h1 hp
      rw [wrapInt64_of_isInt64 ⟨by unfold minInt64; omega, hle⟩]
      omega
    · rw [if_neg hp]
  · rw [Cache.Set_lookup_ne c v d now hkk] at hk
    exact hc k' it hk

theorem Op.run_nonneg (op : Op V) (c : Cache V)
    (hr : op.insertsInRange c.defaultExpiration)
    (hc : ∀ k it, c.items.lookup k = some it → 0 ≤ it.Expiration) :
    ∀ k it, (op.run c).items.lookup k = some it → 0 ≤ it.Expiration := by
  cases op with
  | Set k' v d now => exact Cache.Set_nonneg c k' v d now hr hc
  | Add k' v d tGet tSet =>
    simp only [Op.run]
    rcases Cache.Add_fst_cases c k' v d tGet tSet with h | h
    · rw [h.2]; exact hc
    · rw [h.2]; exact Cache.Set_nonneg c k' v d tSet hr hc
  | Get k' now =>
    simp only [Op.run, Cache.Get_fst]; exact hc
  | DeleteExpired now =>
    intro k it hk
    exact hc k it ((Cache.DeleteExpired_lookup_eq_some_iff c now k it).mp hk).1

theorem runOps_nonneg (dflt : Int) :
    ∀ (ops : List (Op V)) (c : Cache V), c.defaultExpiration = dflt →
      (∀ op ∈ ops, op.insertsInRange dflt) →
      (∀ k it, c.items.lookup k = some it → 0 ≤ it.Expiration) →
      ∀ k it, (runOps ops c).items.lookup k = some it → 0 ≤ it.Expiration := by
  intro ops
  induction ops with
  | nil => intro c _ _ hc; exact hc
  | cons op ops ih =>
    intro c hd hr hc
    have hrun : runOps (op :: ops) c = runOps ops (op.run c) := rfl
    rw [hrun]
    refine ih (op.run c) ?_ (fun o ho => hr o (List.mem_cons_of_mem _ ho)) ?_
    · rw [Op.run_defaultExpiration]; exact hd
    · exact Op.run_nonneg op c (hd ▸ hr op (List.mem_cons_self _ _)) hc

theorem lastWrite_cons (k : String) (op : Op V) (ops : List (Op V)) (c : Cache V)
    (prev : Option (Int × Int)) :
    lastWrite k (op :: ops) c prev = lastWrite k ops (op.run c) (noteWrite k c prev op) :=
  rfl

theorem noteWrite_step (k : String) (op : Op V) (c : Cache V) (prev : Option (Int × Int))
    (hc : ∀ it, c.items.lookup k = some it →
      ∃ t d', prev = some (t, d') ∧
        it.Expiration = if d' > 0 then wrapInt64 (t + d') else 0) :
    ∀ it, (op.run c).items.lookup k = some it →
      ∃ t d', noteWrite k c prev op = some (t, d') ∧
        it.Expiration = if d' > 0 then wrapInt64 (t + d') else 0 := by
  have hset : ∀ (v : Option V) (d now : Int) (it : Item V),
      (c.Set k v d now).items.lookup k = some it →
        it.Expiration =
          if effectiveTTL c d > 0 then wrapInt64 (now + effectiveTTL c d) else 0 := by
    intro v d now it hk
    rw [Cache.Set_lookup_self] at hk
    rw [← Option.some.inj hk]
  intro it hk
  cases op with
  | Set k' v d now =>
    simp only [Op.run] at hk
    by_cases hkk : k' = k
    · subst hkk
      exact ⟨now, effectiveTTL c d, by simp [noteWrite], hset v d now it hk⟩
    · rw [Cache.Set_lookup_ne c v d now (Ne.symm hkk)] at hk
      simpa [noteWrite, hkk] using hc it hk
  | Add k' v d tGet tSet =>
    simp only [Op.run] at hk
    rcases Cache.Add_fst_cases c k' v d tGet tSet with h | h
    · rw [h.2] at hk
      simpa [noteWrite, h.1] using hc it hk
    · rw [h.2] at hk
      by_cases hkk : k' = k
      · subst hkk
        exact ⟨tSet, effectiveTTL c d, by simp [noteWrite, h.1], hset v d tSet it hk⟩
      · rw [Cache.Set_lookup_ne c v d tSet (Ne.symm hkk)] at hk
        simpa [noteWrite, hkk] using hc it hk
  | Get k' now =>
    simp only [Op.run, Cache.Get_fst] at hk
    exact hc it hk
  | DeleteExpired now =>
    simp only [Op.run] at hk
    exact hc it ((Cache.DeleteExpired_lookup_eq_some_iff c now k it).mp hk).1

theorem lastWrite_invariant (k : String) :
    ∀ (ops : List (Op V)) (c : Cache V) (prev : Option (Int × Int)),
      (∀ it, c.items.lookup k = some it →
        ∃ t d', prev = some (t, d') ∧
          it.Expiration = if d' > 0 then wrapInt64 (t + d') else 0) →
      ∀ it, (runOps ops c).items.lookup k = some it →
        ∃ t d', lastWrite k ops c prev = some (t, d') ∧
          it.Expiration = if d' > 0 then wrapInt64 (t + d') else 0 := by
  intro ops
  induction ops with
  | nil => intro c prev hc; exact hc
  | cons op ops ih =>
    intro c prev hc
    have hrun : runOps (op :: ops) c = runOps ops (op.run c) := rfl
    rw [hrun, lastWrite_cons]
    exact ih (op.run c) _ (noteWrite_step k op c prev hc)

end Aux

/-! ## The read contract -/

/-- C1, as the code has it: `Get(k)` at time `now` returns `(value, true)`
exactly when the store holds an entry for `k` whose `Expiration` is `0` or not
yet passed (`now ≤ Expiration`, so also at `now = Expiration`), the value
being the stored object; it returns `(nil, false)` exactly when there is no
such entry. -/
theorem Get_found_iff_not_passed {V : Type} (c : Cache V) (k : String) (now : Int) :
    (∀ val : Option V, (c.Get k now).2 = (val, true) ↔
      ∃ it, c.items.lookup k = some it ∧ (it.Expiration = 0 ∨ now ≤ it.Expiration) ∧
        it.Object = val) ∧
    ((c.Get k now).2 = (none, false) ↔
      ¬ ∃ it, c.items.lookup k = some it ∧ (it.Expiration = 0 ∨ now ≤ it.Expiration)) := by
  cases hk : c.items.lookup k with
  | none =>
    rw [Cache.Get_snd_of_lookup_none now hk]
    simp
  | some it =>
    rw [Cache.Get_snd_of_lookup_some now hk]
    by_cases hx : it.Expired now = true
    · have hx2 := (Item.Expired_eq_true_iff it now).mp hx
      have hn : ¬ (it.Expiration = 0 ∨ now ≤ it.Expiration) := fun h => by omega
      simp [hx, hn]
    · have hx3 : it.Expired now = false := by simpa using hx
      have hx2 := (Item.Expired_eq_false_iff it now).mp hx3
      simp [hx3, hx2]

/-- C1 fails at the boundary: an entry written with TTL 3 at clock reading 2
has `Expiration = 5`; at `now = 5` its `Expiration` is neither `0` nor strictly
later than `now`, and `Get` still returns `(7, true)`, not `(nil, false)`. -/
theorem Get_at_expiration_instant_still_found :
    ((Cache.empty Nat 0 0).Set "k" (some 7) 3 2).items.lookup "k" = some ⟨some 7, 5⟩ ∧
    ¬ ((5 : Int) = 0 ∨ (5 : Int) < 5) ∧
    (((Cache.empty Nat 0 0).Set "k" (some 7) 3 2).Get "k" 5).2 = (some 7, true) ∧
    (((Cache.empty Nat 0 0).Set "k" (some 7) 3 2).Get "k" 5).2 ≠ (none, false) := by
  decide

/-- C2: after `Set(k, v, NoExpiration)` at any clock reading `t0`, and then any
sequence of calls that contains no `Set` or `Add` on `k` (any number of
`DeleteExpired` passes, reads, and writes of other keys, at any clock
readings), `Get(k)` at any clock reading `t1` returns `(v, true)`. -/
theorem Get_after_Set_NoExpiration {V : Type} (c : Cache V) (k : String) (v : Option V)
    (t0 t1 : Int) (ops : List (Op V)) (hops : ∀ op ∈ ops, op.writesKey k = false) :
    ((runOps ops (c.Set k v NoExpiration t0)).Get k t1).2 = (v, true) := by
  have h0 : (c.Set k v NoExpiration t0).items.lookup k = some ⟨v, 0⟩ := by
    rw [Cache.Set_lookup_self]
    simp [effectiveTTL, NoExpiration, DefaultExpiration]
  have h1 := runOps_lookup_of_nonpos k (⟨v, 0⟩ : Item V) (le_refl _) ops _ hops h0
  rw [Cache.Get_snd_of_lookup_some t1 h1]
  simp [Item.Expired]

/-- Witness for C2: two sweeps, a read and a write of another key lie between
the `Set` at clock reading 10 and the `Get` at clock reading 1000. -/
theorem Get_after_Set_NoExpiration_witness :
    (∀ op ∈ [Op.DeleteExpired 20, Op.Set "j" (some 2) 5 30, Op.Get "k" 40,
        Op.DeleteExpired 500], Op.writesKey "k" op = false) ∧
    ((runOps [Op.DeleteExpired 20, Op.Set "j" (some 2) 5 30, Op.Get "k" 40,
        Op.DeleteExpired 500]
      ((Cache.empty Nat 7 0).Set "k" (some 1) NoExpiration 10)).Get "k" 1000).2 =
      (some 1, true) :=
  ⟨by decide,
   Get_after_Set_NoExpiration (Cache.empty Nat 7 0) "k" (some 1) 10 1000
     [Op.DeleteExpired 20, Op.Set "j" (some 2) 5 30, Op.Get "k" 40, Op.DeleteExpired 500]
     (by decide)⟩

/-! ## Expiration instants computed by `Set` -/

/-- C3, as the code has it: for a TTL `d > 0` and a clock reading `t0`, both of
type `int64`, after `Set(k, v, d)` at `t0` and with no sweep in between:
if `t0 + d` does not exceed the largest `int64`, `Get(k)` at `t0` returns
`(v, true)`; and if `t0 + d ≠ 0`, `Get(k)` at every clock reading `t1` with
`t1 - t0 > d` returns `(nil, false)`. -/
theorem Get_after_Set_positive_ttl {V : Type} (c : Cache V) (k : String) (v : Option V)
    (d t0 : Int) (hd : 0 < d) (hdr : isInt64 d) (h0 : isInt64 t0) :
    (t0 + d ≤ maxInt64 → ((c.Set k v d t0).Get k t0).2 = (v, true)) ∧
    (t0 + d ≠ 0 → ∀ t1 : Int, t1 - t0 > d → ((c.Set k v d t0).Get k t1).2 = (none, false)) := by
  have hl : (c.Set k v d t0).items.lookup k = some ⟨v, wrapInt64 (t0 + d)⟩ := by
    rw [Cache.Set_lookup_self]
    have hne : d ≠ DefaultExpiration := by unfold DefaultExpiration; omega
    simp [effectiveTTL, hne, hd]
  unfold isInt64 minInt64 maxInt64 at hdr h0
  constructor
  · intro hov
    have hw : wrapInt64 (t0 + d) = t0 + d :=
      wrapInt64_of_isInt64 ⟨by unfold minInt64; omega, hov⟩
    rw [Cache.Get_snd_of_lookup_some t0 hl]
    have hx : (⟨v, wrapInt64 (t0 + d)⟩ : Item V).Expired t0 = false := by
      rw [Item.Expired_eq_false_iff]
      right
      show t0 ≤ wrapInt64 (t0 + d)
      omega
    simp [hx]
  · intro hz t1 ht1
    rw [Cache.Get_snd_of_lookup_some t1 hl]
    have hx : (⟨v, wrapInt64 (t0 + d)⟩ : Item V).Expired t1 = true := by
      rw [Item.Expired_eq_true_iff]
      show wrapInt64 (t0 + d) ≠ 0 ∧ wrapInt64 (t0 + d) < t1
      unfold wrapInt64
      omega
    simp [hx]

/-- Witness for C3: TTL 5 at clock reading 100; the entry is found at 100 and
gone at 106. -/
theorem Get_after_Set_positive_ttl_witness :
    (0 : Int) < 5 ∧ isInt64 5 ∧ isInt64 100 ∧ (100 : Int) + 5 ≤ maxInt64 ∧
    (100 : Int) + 5 ≠ 0 ∧ (106 : Int) - 100 > 5 ∧
    (((Cache.empty Nat 0 0).Set "k" (some 1) 5 100).Get "k" 100).2 = (some 1, true) ∧
    (((Cache.empty Nat 0 0).Set "k" (some 1) 5 100).Get "k" 106).2 = (none, false) :=
  ⟨by decide, by decide, by decide, by decide, by decide, by decide,
   (Get_after_Set_positive_ttl (Cache.empty Nat 0 0) "k" (some 1) 5 100
      (by decide) (by decide) (by decide)).1 (by decide),
   (Get_after_Set_positive_ttl (Cache.empty Nat 0 0) "k" (some 1) 5 100
      (by decide) (by decide) (by decide)).2 (by decide) 106 (by decide)⟩

/-- C3 fails in two places. With the largest `int64` as TTL at the clock
reading 1700000000000000000 (a date in 2023), `t0 + d` leaves the `int64`
range, the stored `Expiration` is negative, and `Get` at the same clock reading
returns `(nil, false)`. With TTL 5 at the clock reading -5, the stored
`Expiration` is `0`, the mark of an entry that never expires, and `Get` at
clock reading 100, more than 5 after the write, returns `(1, true)`. -/
theorem Get_after_Set_positive_ttl_fails :
    ((0 : Int) < 9223372036854775807 ∧
      (((Cache.empty Nat 0 0).Set "k" (some 1) 9223372036854775807
        1700000000000000000).Get "k" 1700000000000000000).2 = (none, false)) ∧
    ((0 : Int) < 5 ∧ (100 : Int) - (-5) > 5 ∧
      (((Cache.empty Nat 0 0).Set "k" (some 1) 5 (-5)).Get "k" 100).2 = (some 1, true)) := by
  decide

/-- C4, as the code has it: `Set(k, v, d)` at clock reading `now` stores for `k`
an entry with value `v` and an `Expiration` `e` such that, with `d'` the
cache's `defaultExpiration` when `d` is `DefaultExpiration` and `d` otherwise:
`e = 0` when `d'` is `NoExpiration`; when `d'` is positive, `e` is `now + d'`
reduced into the `int64` range, which is `now + d'` itself whenever that sum is
an `int64`. `Set` is a total function: it has no failure outcome. -/
theorem Set_stores_entry {V : Type} (c : Cache V) (k : String) (v : Option V) (d now : Int) :
    ∃ e : Int, (c.Set k v d now).items.lookup k = some ⟨v, e⟩ ∧
      (effectiveTTL c d = NoExpiration → e = 0) ∧
      (0 < effectiveTTL c d → e = wrapInt64 (now + effectiveTTL c d)) ∧
      (0 < effectiveTTL c d → isInt64 (now + effectiveTTL c d) →
        e = now + effectiveTTL c d) := by
  refine ⟨_, Cache.Set_lookup_self c k v d now, ?_, ?_, ?_⟩
  · intro h
    rw [h]
    simp [NoExpiration]
  · intro h
    rw [if_pos h]
  · intro h hr
    rw [if_pos h, wrapInt64_of_isInt64 hr]

/-- C4 fails when `now + d'` leaves the `int64` range: with the largest `int64`
as TTL at the clock reading 1700000000000000000, the stored `Expiration` is
`-7523372036854775809`, not `now + d`. -/
theorem Set_expiration_overflows :
    effectiveTTL (Cache.empty Nat 0 0) 9223372036854775807 = 9223372036854775807 ∧
    ((Cache.empty Nat 0 0).Set "k" (some 1) 9223372036854775807
      1700000000000000000).items.lookup "k" = some ⟨some 1, -7523372036854775809⟩ ∧
    (-7523372036854775809 : Int) ≠ 1700000000000000000 + 9223372036854775807 := by
  decide

/-! ## `Add` -/

/-- C5: `Add(k, v, d)`, whose existence check reads the clock as `tGet`, returns
the error "Item k already exists" if and only if `Get(k)` at `tGet` reports the
key as found, that is if and only if the store holds an entry for `k` that has
not expired at `tGet`; otherwise it returns `nil`. -/
theorem Add_error_iff_live {V : Type} (c : Cache V) (k : String) (v : Option V)
    (d tGet tSet : Int) :
    ((c.Add k v d tGet tSet).2 = some ("Item " ++ k ++ " already exists") ↔
      (c.Get k tGet).2.2 = true) ∧
    ((c.Add k v d tGet tSet).2 ≠ none ↔ (c.Get k tGet).2.2 = true) ∧
    ((c.Add k v d tGet tSet).2 = none ↔ (c.Get k tGet).2.2 = false) ∧
    ((c.Get k tGet).2.2 = true ↔
      ∃ it, c.items.lookup k = some it ∧ it.Expired tGet = false) := by
  have hlive : (c.Get k tGet).2.2 = true ↔
      ∃ it, c.items.lookup k = some it ∧ it.Expired tGet = false := by
    cases hk : c.items.lookup k with
    | none => rw [Cache.Get_snd_of_lookup_none tGet hk]; simp
    | some it =>
      rw [Cache.Get_snd_of_lookup_some tGet hk]
      cases hx : it.Expired tGet <;> simp [hx]
  rw [Cache.Add_eq]
  by_cases hf : (c.Get k tGet).2.2 = true
  · rw [if_pos hf]
    simp [hf, hlive.mp hf]
  · rw [if_neg hf]
    have hf2 : (c.Get k tGet).2.2 = false := by simpa using hf
    refine ⟨by simp [hf2], by simp [hf2], by simp [hf2], ?_⟩
    rw [← hlive]

/-- C6: whenever `Add(k, v2, d2)` returns an error, the cache after the call is
the cache before it; and when `Add(k, v1, d1)` has succeeded and a second
`Add(k, v2, d2)`, checking the key at clock reading `t2`, fails, `Get(k)` at
`t2` on the resulting cache still returns `(v1, true)`. -/
theorem Add_error_leaves_store {V : Type} (c : Cache V) (k : String) (v1 v2 : Option V)
    (d1 d2 t1 t1' t2 t2' : Int) :
    ((c.Add k v2 d2 t2 t2').2 ≠ none → (c.Add k v2 d2 t2 t2').1 = c) ∧
    ((c.Add k v1 d1 t1 t1').2 = none →
      ((c.Add k v1 d1 t1 t1').1.Add k v2 d2 t2 t2').2 ≠ none →
      ((c.Add k v1 d1 t1 t1').1.Add k v2 d2 t2 t2').1 = (c.Add k v1 d1 t1 t1').1 ∧
      ((((c.Add k v1 d1 t1 t1').1.Add k v2 d2 t2 t2').1).Get k t2).2 = (v1, true)) := by
  have key : ∀ (c' : Cache V) (v : Option V) (d tg ts : Int),
      (c'.Add k v d tg ts).2 ≠ none →
        (c'.Add k v d tg ts).1 = c' ∧ (c'.Get k tg).2.2 = true := by
    intro c' v d tg ts h
    rw [Cache.Add_eq] at h ⊢
    by_cases hf : (c'.Get k tg).2.2 = true
    · rw [if_pos hf]; exact ⟨rfl, hf⟩
    · rw [if_neg hf] at h; exact absurd rfl h
  refine ⟨fun h => (key c v2 d2 t2 t2' h).1, ?_⟩
  intro h1 h2
  obtain ⟨hsame, hfound⟩ := key _ v2 d2 t2 t2' h2
  refine ⟨hsame, ?_⟩
  rw [hsame]
  have hset : (c.Add k v1 d1 t1 t1').1 = c.Set k v1 d1 t1' := by
    rw [Cache.Add_eq] at h1 ⊢
    by_cases hf : (c.Get k t1).2.2 = true
    · rw [if_pos hf] at h1; simp at h1
    · rw [if_neg hf]
  rw [hset] at hfound ⊢
  have hl := Cache.Set_lookup_self c k v1 d1 t1'
  rw [Cache.Get_snd_of_lookup_some t2 hl] at hfound ⊢
  generalize (if effectiveTTL c d1 > 0 then wrapInt64 (t1' + effectiveTTL c d1) else 0) = e
    at hfound ⊢
  by_cases hx : (⟨v1, e⟩ : Item V).Expired t2 = true
  · rw [if_pos hx] at hfound
    simp at hfound
  · rw [if_neg hx]

/-- Witness for C6: `Add("k", 1, 50)` at clock reading 10 succeeds on the empty
cache, and `Add("k", 2, 50)` at clock reading 20 fails. -/
theorem Add_error_leaves_store_witness :
    (((Cache.empty Nat 0 0).Add "k" (some 1) 50 10 10).1.Add "k" (some 2) 50 20 20).2 ≠ none ∧
    ((Cache.empty Nat 0 0).Add "k" (some 1) 50 10 10).2 = none ∧
    (((Cache.empty Nat 0 0).Add "k" (some 1) 50 10 10).1.Add "k" (some 2) 50 20 20).1 =
      ((Cache.empty Nat 0 0).Add "k" (some 1) 50 10 10).1 ∧
    (((((Cache.empty Nat 0 0).Add "k" (some 1) 50 10 10).1.Add "k" (some 2) 50 20 20).1).Get
      "k" 20).2 = (some 1, true) :=
  ⟨by decide, by decide,
   (Add_error_leaves_store (((Cache.empty Nat 0 0).Add "k" (some 1) 50 10 10).1) "k"
      (some 1) (some 2) 50 50 10 10 20 20).1 (by decide),
   ((Add_error_leaves_store (Cache.empty Nat 0 0) "k" (some 1) (some 2) 50 50 10 10 20 20).2
      (by decide) (by decide)).2⟩

/-- C7, as the code has it: when `k` holds an entry that has expired at clock
reading `now`, `Add(k, v2, d)` checking the key at `now` returns `nil` and
stores an entry with value `v2` for `k`; and `Get(k)` at the clock reading
`tSet` of the insertion returns `(v2, true)` when `d` is `NoExpiration`, or when
`d` is positive and `tSet + d` does not exceed the largest `int64`. -/
theorem Add_over_expired_entry {V : Type} (c : Cache V) (k : String) (it : Item V)
    (v2 : Option V) (d now tSet : Int) (hk : c.items.lookup k = some it)
    (hx : it.Expired now = true) :
    (c.Add k v2 d now tSet).2 = none ∧
    (∃ e : Int, (c.Add k v2 d now tSet).1.items.lookup k = some ⟨v2, e⟩) ∧
    (d = NoExpiration ∨ (0 < d ∧ isInt64 tSet ∧ tSet + d ≤ maxInt64) →
      ((c.Add k v2 d now tSet).1.Get k tSet).2 = (v2, true)) := by
  have hnf : ¬ (c.Get k now).2.2 = true := by
    rw [Cache.Get_snd_of_lookup_some now hk, if_pos hx]
    simp
  have hadd : c.Add k v2 d now tSet = (c.Set k v2 d tSet, none) := by
    rw [Cache.Add_eq, if_neg hnf]
  rw [hadd]
  refine ⟨rfl, ⟨_, Cache.Set_lookup_self c k v2 d tSet⟩, ?_⟩
  intro hd
  rw [Cache.Get_snd_of_lookup_some tSet (Cache.Set_lookup_self c k v2 d tSet)]
  rcases hd with hd | ⟨hpos, hr, hov⟩
  · subst hd
    simp [effectiveTTL, NoExpiration, DefaultExpiration, Item.Expired]
  · have hne : d ≠ DefaultExpiration := by unfold DefaultExpiration; omega
    have hw : wrapInt64 (tSet + d) = tSet + d :=
      wrapInt64_of_isInt64 ⟨by unfold isInt64 at hr; omega, hov⟩
    have hxf : (⟨v2, wrapInt64 (tSet + d)⟩ : Item V).Expired tSet = false := by
      rw [Item.Expired_eq_false_iff]
      right
      show tSet ≤ wrapInt64 (tSet + d)
      omega
    simp [effectiveTTL, hne, hpos, hxf]

/-- Witness for C7: the entry written with TTL 1 at clock reading 0 has expired
at clock reading 10, where `Add("k", 2, 5)` replaces it. -/
theorem Add_over_expired_entry_witness :
    ((Cache.empty Nat 0 0).Set "k" (some 1) 1 0).items.lookup "k" = some ⟨some 1, 1⟩ ∧
    (⟨some 1, 1⟩ : Item Nat).Expired 10 = true ∧
    (((Cache.empty Nat 0 0).Set "k" (some 1) 1 0).Add "k" (some 2) 5 10 10).2 = none ∧
    ((((Cache.empty Nat 0 0).Set "k" (some 1) 1 0).Add "k" (some 2) 5 10 10).1.Get "k" 10).2 =
      (some 2, true) :=
  ⟨by decide, by decide,
   (Add_over_expired_entry ((Cache.empty Nat 0 0).Set "k" (some 1) 1 0) "k" ⟨some 1, 1⟩
      (some 2) 5 10 10 (by decide) (by decide)).1,
   (Add_over_expired_entry ((Cache.empty Nat 0 0).Set "k" (some 1) 1 0) "k" ⟨some 1, 1⟩
      (some 2) 5 10 10 (by decide) (by decide)).2.2
      (Or.inr ⟨by decide, by decide, by decide⟩)⟩

/-- C7 fails for a positive TTL that takes `now + ttl2` out of the `int64`
range: the entry written with TTL 1 at clock reading 0 has expired at
1700000000000000000; `Add` with the largest `int64` as TTL succeeds there, and
the `Get` that follows at the same clock reading returns `(nil, false)`. -/
theorem Add_over_expired_entry_overflows :
    ((Cache.empty Nat 0 0).Set "k" (some 1) 1 0).items.lookup "k" = some ⟨some 1, 1⟩ ∧
    (⟨some 1, 1⟩ : Item Nat).Expired 1700000000000000000 = true ∧
    (0 : Int) < 9223372036854775807 ∧
    (((Cache.empty Nat 0 0).Set "k" (some 1) 1 0).Add "k" (some 2) 9223372036854775807
      1700000000000000000 1700000000000000000).2 = none ∧
    ((((Cache.empty Nat 0 0).Set "k" (some 1) 1 0).Add "k" (some 2) 9223372036854775807
      1700000000000000000 1700000000000000000).1.Get "k" 1700000000000000000).2 =
      (none, false) := by
  decide

/-! ## The sweep -/

/-- C8: the cache after `DeleteExpired()` at clock reading `now` is the cache
before it restricted to the entries that do not satisfy
`Expiration > 0 ∧ now > Expiration`: the entries of the map are those of the
original map that fail this test, in their original order; a key whose entry
passes the test is absent afterwards; a key whose entry fails it (every entry
with `Expiration = 0` among them) keeps its entry unchanged; a key that was
absent stays absent; the other fields of the cache are unchanged. -/
theorem DeleteExpired_restricts_store {V : Type} (c : Cache V) (now : Int) :
    (c.DeleteExpired now).items.entries =
      c.items.entries.filter (fun e => !decide (e.2.Expiration > 0 ∧ now > e.2.Expiration)) ∧
    (∀ k it, c.items.lookup k = some it → (it.Expiration > 0 ∧ now > it.Expiration) →
      (c.DeleteExpired now).items.lookup k = none) ∧
    (∀ k it, c.items.lookup k = some it → ¬ (it.Expiration > 0 ∧ now > it.Expiration) →
      (c.DeleteExpired now).items.lookup k = some it) ∧
    (∀ k it, c.items.lookup k = some it → it.Expiration = 0 →
      (c.DeleteExpired now).items.lookup k = some it) ∧
    (∀ k, c.items.lookup k = none → (c.DeleteExpired now).items.lookup k = none) ∧
    (c.DeleteExpired now).defaultExpiration = c.defaultExpiration ∧
    (c.DeleteExpired now).gcInterval = c.gcInterval := by
  refine ⟨Cache.DeleteExpired_entries c now, ?_, ?_, ?_, ?_,
    Cache.DeleteExpired_defaultExpiration c now, Cache.DeleteExpired_gcInterval c now⟩
  · intro k it hk hp
    rw [Cache.DeleteExpired_lookup, hk]
    simp [Option.filter, hp]
  · intro k it hk hp
    rw [Cache.DeleteExpired_lookup, hk]
    simp [Option.filter, hp]
  · intro k it hk hz
    rw [Cache.DeleteExpired_lookup, hk]
    simp [Option.filter, hz]
  · intro k hk
    rw [Cache.DeleteExpired_lookup, hk]
    rfl

/-- C9: `DeleteExpired()` is idempotent: two passes at the same clock reading
leave the cache that one pass leaves. -/
theorem DeleteExpired_idempotent {V : Type} (c : Cache V) (now : Int) :
    (c.DeleteExpired now).DeleteExpired now = c.DeleteExpired now := by
  apply Cache.ext_entries
  · rw [Cache.DeleteExpired_defaultExpiration]
  · rw [Cache.DeleteExpired_entries, Cache.DeleteExpired_entries, List.filter_filter]
    simp
  · rw [Cache.DeleteExpired_gcInterval]

/-! ## Reads leave the store alone -/

/-- C10: `Get` does not change the cache: the cache after `Get(k)` is the cache
before it, at every clock reading; an entry for `k` that has expired is
reported as `(nil, false)` and is still in the map after the call; and after
any sequence of `Get` calls the cache is the one before them. -/
theorem Get_leaves_store {V : Type} (c : Cache V) (k : String) (now : Int) :
    (c.Get k now).1 = c ∧
    (∀ it, c.items.lookup k = some it → it.Expired now = true →
      (c.Get k now).2 = (none, false) ∧ (c.Get k now).1.items.lookup k = some it) ∧
    (∀ reads : List (String × Int),
      runOps (reads.map (fun r => Op.Get r.1 r.2)) c = c) := by
  refine ⟨Cache.Get_fst c k now, ?_, ?_⟩
  · intro it hk hx
    rw [Cache.Get_fst, Cache.Get_snd_of_lookup_some now hk, if_pos hx]
    exact ⟨rfl, hk⟩
  · intro reads
    induction reads with
    | nil => rfl
    | cons r reads ih =>
      unfold runOps at ih ⊢
      rw [List.map_cons, List.foldl_cons]
      have hr : (Op.Get r.1 r.2 : Op V).run c = c := Cache.Get_fst c r.1 r.2
      rw [hr]
      exact ih

/-- C11: reads do not depend on sweeping: for clock readings `ts ≤ t`, `Get(k)` at
`t` on the cache left by `DeleteExpired()` at `ts` returns the pair that `Get(k)`
at `t` returns on the cache that was not swept. -/
theorem Get_after_DeleteExpired {V : Type} (c : Cache V) (k : String) (ts t : Int)
    (h : ts ≤ t) : ((c.DeleteExpired ts).Get k t).2 = (c.Get k t).2 := by
  cases hk : c.items.lookup k with
  | none =>
    have hk2 : (c.DeleteExpired ts).items.lookup k = none := by
      rw [Cache.DeleteExpired_lookup, hk]; rfl
    rw [Cache.Get_snd_of_lookup_none t hk, Cache.Get_snd_of_lookup_none t hk2]
  | some it =>
    by_cases hp : it.Expiration > 0 ∧ ts > it.Expiration
    · have hk2 : (c.DeleteExpired ts).items.lookup k = none := by
        rw [Cache.DeleteExpired_lookup, hk]
        simp [Option.filter, hp]
      have hx : it.Expired t = true := by
        rw [Item.Expired_eq_true_iff]
        omega
      rw [Cache.Get_snd_of_lookup_none t hk2, Cache.Get_snd_of_lookup_some t hk, if_pos hx]
    · have hk2 : (c.DeleteExpired ts).items.lookup k = some it := by
        rw [Cache.DeleteExpired_lookup, hk]
        simp [Option.filter, hp]
      rw [Cache.Get_snd_of_lookup_some t hk2, Cache.Get_snd_of_lookup_some t hk]

/-- Witness for C11: the entry written with TTL 5 at clock reading 0 is swept at
clock reading 10 and read at clock reading 20. -/
theorem Get_after_DeleteExpired_witness :
    (10 : Int) ≤ 20 ∧
    ((((Cache.empty Nat 0 0).Set "k" (some 1) 5 0).DeleteExpired 10).Get "k" 20).2 =
      (((Cache.empty Nat 0 0).Set "k" (some 1) 5 0).Get "k" 20).2 :=
  ⟨by decide,
   Get_after_DeleteExpired ((Cache.empty Nat 0 0).Set "k" (some 1) 5 0) "k" 10 20 (by decide)⟩

/-! ## The frame of `Set`, and `Add` as a guarded `Set` -/

/-- C12: `Set(k, v, d)` at clock reading `now` leaves for `k` an entry that holds
`v` and an `Expiration` computed from `d`, `now` and the default TTL alone,
whatever the map held for `k` before; the entry of every other key `k'`
(present or absent, value and `Expiration`) is the one from before the call;
the keys of the map are `k` and the former keys; the other fields of the cache
are unchanged. -/
theorem Set_replaces_only_its_key {V : Type} (c : Cache V) (k : String) (v : Option V)
    (d now : Int) :
    (c.Set k v d now).items.lookup k =
      some ⟨v, if effectiveTTL c d > 0 then wrapInt64 (now + effectiveTTL c d) else 0⟩ ∧
    (∀ k', k' ≠ k → (c.Set k v d now).items.lookup k' = c.items.lookup k') ∧
    (∀ k', k' ∈ (c.Set k v d now).items ↔ k' = k ∨ k' ∈ c.items) ∧
    (c.Set k v d now).defaultExpiration = c.defaultExpiration ∧
    (c.Set k v d now).gcInterval = c.gcInterval := by
  refine ⟨Cache.Set_lookup_self c k v d now,
    fun k' h => Cache.Set_lookup_ne c v d now h, ?_, rfl, rfl⟩
  intro k'
  unfold Cache.Set
  exact AList.mem_insert c.items

/-- C14: when `Get(k)` at the clock reading `tGet` of the existence check does
not report `k` as found, `Add(k, v, d)` returns `nil` and leaves the cache that
`Set(k, v, d)` leaves at the clock reading `tSet` of the insertion; the
unlocked helpers `get` and `set` compute what `Get` and `Set` compute. -/
theorem Add_eq_Set_of_not_live {V : Type} (c : Cache V) (k : String) (v : Option V)
    (d tGet tSet : Int) (h : (c.Get k tGet).2.2 = false) :
    (c.Add k v d tGet tSet).1 = c.Set k v d tSet ∧
    (c.Add k v d tGet tSet).2 = none ∧
    (∀ (c' : Cache V) (k' : String) (t : Int), c'.get k' t = c'.Get k' t) ∧
    (∀ (c' : Cache V) (k' : String) (v' : Option V) (d' t : Int),
      c'.set k' v' d' t = c'.Set k' v' d' t) := by
  have hadd : c.Add k v d tGet tSet = (c.Set k v d tSet, none) := by
    rw [Cache.Add_eq, h]
    simp
  rw [hadd]
  exact ⟨rfl, rfl, fun c' k' t => Cache.get_eq_Get c' k' t,
    fun c' k' v' d' t => Cache.set_eq_Set c' k' v' d' t⟩

/-- Witness for C14: `"k"` holds an entry that expired before clock reading 10,
so `Add("k", 2, 5)` at 10 leaves the cache that `Set("k", 2, 5)` at 10 leaves. -/
theorem Add_eq_Set_of_not_live_witness :
    (((Cache.empty Nat 0 0).Set "k" (some 1) 1 0).Get "k" 10).2.2 = false ∧
    (((Cache.empty Nat 0 0).Set "k" (some 1) 1 0).Add "k" (some 2) 5 10 10).1 =
      ((Cache.empty Nat 0 0).Set "k" (some 1) 1 0).Set "k" (some 2) 5 10 :=
  ⟨by decide,
   (Add_eq_Set_of_not_live ((Cache.empty Nat 0 0).Set "k" (some 1) 1 0) "k" (some 2) 5 10 10
      (by decide)).1⟩

/-! ## Entries that never expire, and expiry over time -/

/-- C18: when the TTL argument `d` is negative, or is `DefaultExpiration` with a
default TTL of the cache that is zero or negative, `Set(k, v, d)` and an
`Add(k, v, d)` that returns `nil` store for `k` the entry with value `v` and
`Expiration = 0`; after any sequence of calls that contains no `Set` or `Add`
on `k` (sweeps at any clock readings among them) that entry is still the entry
of `k`, and `Get(k)` returns `(v, true)` at every clock reading. -/
theorem nonpositive_ttl_never_expires {V : Type} (c : Cache V) (k : String) (v : Option V)
    (d : Int) (h : d < 0 ∨ (d = DefaultExpiration ∧ c.defaultExpiration ≤ 0)) :
    (∀ now, (c.Set k v d now).items.lookup k = some ⟨v, 0⟩) ∧
    (∀ tGet tSet, (c.Add k v d tGet tSet).2 = none →
      (c.Add k v d tGet tSet).1.items.lookup k = some ⟨v, 0⟩) ∧
    (∀ (now : Int) (ops : List (Op V)) (t : Int), (∀ op ∈ ops, op.writesKey k = false) →
      (runOps ops (c.Set k v d now)).items.lookup k = some ⟨v, 0⟩ ∧
      ((runOps ops (c.Set k v d now)).Get k t).2 = (v, true)) ∧
    (∀ (tGet tSet : Int) (ops : List (Op V)) (t : Int),
      (c.Add k v d tGet tSet).2 = none → (∀ op ∈ ops, op.writesKey k = false) →
      (runOps ops (c.Add k v d tGet tSet).1).items.lookup k = some ⟨v, 0⟩ ∧
      ((runOps ops (c.Add k v d tGet tSet).1).Get k t).2 = (v, true)) := by
  have hset : ∀ now, (c.Set k v d now).items.lookup k = some ⟨v, 0⟩ := by
    intro now
    rw [Cache.Set_lookup_self]
    have hnp : ¬ effectiveTTL c d > 0 := by
      unfold effectiveTTL DefaultExpiration
      rcases h with h | ⟨h1, h2⟩
      · have hne : d ≠ 0 := by omega
        rw [if_neg hne]; omega
      · unfold DefaultExpiration at h1
        rw [if_pos h1]; omega
    rw [if_neg hnp]
  have hadd : ∀ tGet tSet, (c.Add k v d tGet tSet).2 = none →
      (c.Add k v d tGet tSet).1 = c.Set k v d tSet := by
    intro tGet tSet hn
    rcases Cache.Add_fst_cases c k v d tGet tSet with h1 | h1
    · exact absurd hn h1.1
    · exact h1.2
  have hrun : ∀ (now : Int) (ops : List (Op V)) (t : Int),
      (∀ op ∈ ops, op.writesKey k = false) →
      (runOps ops (c.Set k v d now)).items.lookup k = some ⟨v, 0⟩ ∧
      ((runOps ops (c.Set k v d now)).Get k t).2 = (v, true) := by
    intro now ops t hops
    have hl := runOps_lookup_of_nonpos k (⟨v, 0⟩ : Item V) (le_refl _) ops _ hops (hset now)
    refine ⟨hl, ?_⟩
    rw [Cache.Get_snd_of_lookup_some t hl]
    simp [Item.Expired]
  refine ⟨hset, ?_, hrun, ?_⟩
  · intro tGet tSet hn
    rw [hadd tGet tSet hn]
    exact hset tSet
  · intro tGet tSet ops t hn hops
    rw [hadd tGet tSet hn]
    exact hrun tSet ops t hops

/-- Witness for C18: TTL `-7` on a cache whose default TTL is 60; two sweeps
and a write of another key follow the `Set`. -/
theorem nonpositive_ttl_never_expires_witness :
    ((-7 : Int) < 0 ∨ ((-7 : Int) = DefaultExpiration ∧
      (Cache.empty Nat 60 0).defaultExpiration ≤ 0)) ∧
    ((Cache.empty Nat 60 0).Set "k" (some 1) (-7) 10).items.lookup "k" = some ⟨some 1, 0⟩ ∧
    ((runOps [Op.DeleteExpired 20, Op.Set "j" (some 2) 5 30, Op.DeleteExpired 5000]
      ((Cache.empty Nat 60 0).Set "k" (some 1) (-7) 10)).Get "k" 9000).2 = (some 1, true) :=
  ⟨by decide,
   (nonpositive_ttl_never_expires (Cache.empty Nat 60 0) "k" (some 1) (-7)
      (Or.inl (by decide))).1 10,
   ((nonpositive_ttl_never_expires (Cache.empty Nat 60 0) "k" (some 1) (-7)
      (Or.inl (by decide))).2.2.1 10
      [Op.DeleteExpired 20, Op.Set "j" (some 2) 5 30, Op.DeleteExpired 5000] 9000
      (by decide)).2⟩

/-- C19: expiry is monotone in time: for clock readings `t1 ≤ t2` and any
sequence of calls in between that contains no `Set` or `Add` on `k`, if
`Get(k)` at `t1` reports `k` as not found then `Get(k)` at `t2` returns
`(nil, false)`, and if `Get(k)` at `t2` returns `(v, true)` then `Get(k)` at
`t1` returned the same `(v, true)`. -/
theorem Get_monotone_in_time {V : Type} (c : Cache V) (k : String) (t1 t2 : Int)
    (ops : List (Op V)) (ht : t1 ≤ t2) (hops : ∀ op ∈ ops, op.writesKey k = false) :
    ((c.Get k t1).2.2 = false → ((runOps ops c).Get k t2).2 = (none, false)) ∧
    (∀ v : Option V, ((runOps ops c).Get k t2).2 = (v, true) → (c.Get k t1).2 = (v, true)) := by
  rcases runOps_lookup_of_not_writes k ops c hops with hsame | hnone
  · cases hk : c.items.lookup k with
    | none =>
      rw [hk] at hsame
      rw [Cache.Get_snd_of_lookup_none t2 hsame, Cache.Get_snd_of_lookup_none t1 hk]
      exact ⟨fun _ => rfl, fun v hv => hv⟩
    | some it =>
      rw [hk] at hsame
      rw [Cache.Get_snd_of_lookup_some t2 hsame, Cache.Get_snd_of_lookup_some t1 hk]
      by_cases hx1 : it.Expired t1 = true
      · have hx2 : it.Expired t2 = true := by
          rw [Item.Expired_eq_true_iff] at hx1 ⊢
          omega
        rw [if_pos hx1, if_pos hx2]
        exact ⟨fun _ => rfl, fun v hv => hv⟩
      · rw [if_neg hx1]
        constructor
        · intro hf; simp at hf
        · intro v hv
          by_cases hx2 : it.Expired t2 = true
          · rw [if_pos hx2] at hv; simp at hv
          · rw [if_neg hx2] at hv; exact hv
  · rw [Cache.Get_snd_of_lookup_none t2 hnone]
    exact ⟨fun _ => rfl, fun v hv => by simp at hv⟩

/-- Witness for C19: the entry written with TTL 5 at clock reading 0 is not
found at clock reading 6, nor at clock reading 50 after a sweep and a write of
another key. -/
theorem Get_monotone_in_time_witness :
    (6 : Int) ≤ 50 ∧
    (∀ op ∈ [Op.DeleteExpired 7, Op.Set "j" (some 2) 5 30], Op.writesKey "k" op = false) ∧
    (((Cache.empty Nat 0 0).Set "k" (some 1) 5 0).Get "k" 6).2.2 = false ∧
    ((runOps [Op.DeleteExpired 7, Op.Set "j" (some 2) 5 30]
      ((Cache.empty Nat 0 0).Set "k" (some 1) 5 0)).Get "k" 50).2 = (none, false) :=
  ⟨by decide, by decide, by decide,
   (Get_monotone_in_time ((Cache.empty Nat 0 0).Set "k" (some 1) 5 0) "k" 6 50
      [Op.DeleteExpired 7, Op.Set "j" (some 2) 5 30] (by decide) (by decide)).1 (by decide)⟩

/-! ## The sweeper loop -/

/-- C15: in the running phase of `gcLoop`, a tick makes exactly one call of
`DeleteExpired` (at the clock reading of the tick) and leaves the loop running;
the stop signal ends the loop without a sweep; after the stop signal no
sequence of events changes anything: no further call of `DeleteExpired`, and
the phase stays stopped. Over any sequence of events, the calls of
`DeleteExpired` are as many as the ticks before the first stop signal, and the
loop is still running exactly when no stop signal has been received. -/
theorem gcLoop_state_machine {V : Type} (s : GcState V) (hs : s.phase = GcPhase.running) :
    (∀ now, gcStep s (GcEvent.tick now) =
      { phase := GcPhase.running, cache := s.cache.DeleteExpired now,
        sweeps := s.sweeps + 1 }) ∧
    gcStep s GcEvent.stop =
      { phase := GcPhase.stopped, cache := s.cache, sweeps := s.sweeps } ∧
    (∀ evs : List GcEvent, gcRun evs (gcStep s GcEvent.stop) = gcStep s GcEvent.stop) ∧
    (∀ evs : List GcEvent,
      (gcRun evs s).sweeps = s.sweeps + (evs.takeWhile GcEvent.isTick).length) ∧
    (∀ evs : List GcEvent,
      (gcRun evs s).phase = GcPhase.running ↔ ∀ e ∈ evs, e.isTick = true) ∧
    (∀ (c : Cache V) (evs : List GcEvent), 0 < c.gcInterval →
      c.gcLoop evs = some (gcRun evs { phase := GcPhase.running, cache := c, sweeps := 0 })) := by
  obtain ⟨p, c, n⟩ := s
  simp only at hs
  subst hs
  refine ⟨fun now => rfl, rfl, ?_, ?_, ?_, ?_⟩
  · intro evs
    exact gcRun_of_stopped evs _ rfl
  · intro evs
    exact (gcRun_of_running evs _ rfl).1
  · intro evs
    exact (gcRun_of_running evs _ rfl).2
  · intro c' evs hpos
    unfold Cache.gcLoop
    rw [if_pos hpos]

/-- Witness for C15: two ticks, the stop signal, and two more ticks: two
sweeps, and the loop is stopped. -/
theorem gcLoop_state_machine_witness :
    ({ phase := GcPhase.running, cache := Cache.empty Nat 0 1, sweeps := 0 } :
      GcState Nat).phase = GcPhase.running ∧
    (gcRun [GcEvent.tick 1, GcEvent.tick 2, GcEvent.stop, GcEvent.tick 3, GcEvent.tick 4]
      ({ phase := GcPhase.running, cache := Cache.empty Nat 0 1, sweeps := 0 } :
        GcState Nat)).sweeps = 0 + 2 :=
  ⟨rfl,
   (gcLoop_state_machine
      ({ phase := GcPhase.running, cache := Cache.empty Nat 0 1, sweeps := 0 } : GcState Nat)
      rfl).2.2.2.1
      [GcEvent.tick 1, GcEvent.tick 2, GcEvent.stop, GcEvent.tick 3, GcEvent.tick 4]⟩

/-! ## Invariants of the caches built through the interface -/

/-- C13, as the code has it: in a cache reached from the empty cache by any
sequence of `Set`, `Add`, `Get` and `DeleteExpired` calls, an entry present for
`k` has a most recent successful `Set` or `Add` on `k`, at clock reading `t`
with TTL `d'` after the substitution of the default, and its `Expiration` is
`0` when `d' ≤ 0` and `t + d'` reduced into the `int64` range when `d' > 0`,
which is `t + d'` itself whenever that sum is an `int64`. A `Get` leaves the
cache as it is, and an entry of `k` that a `DeleteExpired` leaves in the map is
the entry from before the sweep. -/
theorem expiration_is_insertion_time_plus_ttl {V : Type} (dflt gi : Int)
    (ops : List (Op V)) (k : String) (it : Item V)
    (h : (runOps ops (Cache.empty V dflt gi)).items.lookup k = some it) :
    (∃ t d', lastWrite k ops (Cache.empty V dflt gi) none = some (t, d') ∧
      (d' ≤ 0 → it.Expiration = 0) ∧
      (0 < d' → it.Expiration = wrapInt64 (t + d')) ∧
      (0 < d' → isInt64 (t + d') → it.Expiration = t + d')) ∧
    (∀ k' now, ((runOps ops (Cache.empty V dflt gi)).Get k' now).1 =
      runOps ops (Cache.empty V dflt gi)) ∧
    (∀ now it', ((runOps ops (Cache.empty V dflt gi)).DeleteExpired now).items.lookup k =
      some it' → it' = it) := by
  refine ⟨?_, fun k' now => Cache.Get_fst _ k' now, ?_⟩
  · have h0 : ∀ it0, (Cache.empty V dflt gi).items.lookup k = some it0 →
        ∃ t d', (none : Option (Int × Int)) = some (t, d') ∧
          it0.Expiration = if d' > 0 then wrapInt64 (t + d') else 0 := by
      intro it0 hk
      have hn : (Cache.empty V dflt gi).items.lookup k = none := AList.lookup_empty k
      rw [hn] at hk
      exact absurd hk (by simp)
    obtain ⟨t, d', hw, he⟩ := lastWrite_invariant k ops (Cache.empty V dflt gi) none h0 it h
    refine ⟨t, d', hw, ?_, ?_, ?_⟩
    · intro hd
      rw [he, if_neg (by omega)]
    · intro hd
      rw [he, if_pos hd]
    · intro hd hr
      rw [he, if_pos hd, wrapInt64_of_isInt64 hr]
  · intro now it' hk
    have h1 := ((Cache.DeleteExpired_lookup_eq_some_iff _ now k it').mp hk).1
    rw [h] at h1
    exact (Option.some.inj h1).symm

/-- Witness for C13: `Set("k", 1, 5)` at clock reading 100, a sweep at 101,
and `Add("k", 2, 7)` at 200 over the expired entry: the entry of `"k"` has
`Expiration = 207`. -/
theorem expiration_is_insertion_time_plus_ttl_witness :
    (runOps [Op.Set "k" (some 1) 5 100, Op.DeleteExpired 101, Op.Add "k" (some 2) 7 200 200]
      (Cache.empty Nat 0 0)).items.lookup "k" = some ⟨some 2, 207⟩ ∧
    lastWrite "k"
      [Op.Set "k" (some 1) 5 100, Op.DeleteExpired 101, Op.Add "k" (some 2) 7 200 200]
      (Cache.empty Nat 0 0) none = some (200, 7) ∧
    ∀ now it', ((runOps
      [Op.Set "k" (some 1) 5 100, Op.DeleteExpired 101, Op.Add "k" (some 2) 7 200 200]
      (Cache.empty Nat 0 0)).DeleteExpired now).items.lookup "k" = some it' →
        it' = ⟨some 2, 207⟩ :=
  ⟨by decide, by decide,
   (expiration_is_insertion_time_plus_ttl 0 0
      [Op.Set "k" (some 1) 5 100, Op.DeleteExpired 101, Op.Add "k" (some 2) 7 200 200]
      "k" ⟨some 2, 207⟩ (by decide)).2.2⟩

/-- C13 fails when clock reading plus TTL leaves the `int64` range: after the
single call `Set("k", 1, d)` with `d` the largest `int64` at the clock reading
1700000000000000000 on the empty cache, the entry of `"k"` has the `Expiration`
`-7523372036854775809`, which is neither `0` nor the clock reading plus the
TTL of that `Set`. -/
theorem expiration_invariant_overflows :
    (runOps [Op.Set "k" (some 1) 9223372036854775807 1700000000000000000]
      (Cache.empty Nat 0 0)).items.lookup "k" = some ⟨some 1, -7523372036854775809⟩ ∧
    lastWrite "k" [Op.Set "k" (some 1) 9223372036854775807 1700000000000000000]
      (Cache.empty Nat 0 0) none = some (1700000000000000000, 9223372036854775807) ∧
    (-7523372036854775809 : Int) ≠ 0 ∧
    (-7523372036854775809 : Int) ≠ 1700000000000000000 + 9223372036854775807 := by
  decide

/-- C17, as the code has it: take a cache reached from the empty cache by a
sequence of calls in which every `Set` and `Add` inserts at a non-negative
clock reading and, when its TTL after the substitution of the default is
positive, with clock reading plus TTL not above the largest `int64`. Then after
`DeleteExpired()` at clock reading `now` every key still in the map is reported
as found by `Get` at `now`, and an entry of the cache is removed by that sweep
exactly when `Item.Expired` holds for it at `now`. -/
theorem sweep_agrees_with_Expired {V : Type} (dflt gi : Int) (ops : List (Op V))
    (now : Int) (h : ∀ op ∈ ops, op.insertsInRange dflt) :
    (∀ k it, ((runOps ops (Cache.empty V dflt gi)).DeleteExpired now).items.lookup k =
        some it →
      (((runOps ops (Cache.empty V dflt gi)).DeleteExpired now).Get k now).2 =
        (it.Object, true)) ∧
    (∀ k it, (runOps ops (Cache.empty V dflt gi)).items.lookup k = some it →
      (((runOps ops (Cache.empty V dflt gi)).DeleteExpired now).items.lookup k = none ↔
        it.Expired now = true)) := by
  have hnn : ∀ k it, (runOps ops (Cache.empty V dflt gi)).items.lookup k = some it →
      0 ≤ it.Expiration := by
    refine runOps_nonneg dflt ops (Cache.empty V dflt gi) rfl h ?_
    intro k it hk
    have hn : (Cache.empty V dflt gi).items.lookup k = none := AList.lookup_empty k
    rw [hn] at hk
    exact absurd hk (by simp)
  constructor
  · intro k it hk
    have hb := (Cache.DeleteExpired_lookup_eq_some_iff _ now k it).mp hk
    have h0 := hnn k it hb.1
    have hx : it.Expired now = false := by
      rw [Item.Expired_eq_false_iff]
      have := hb.2
      omega
    rw [Cache.Get_snd_of_lookup_some now hk, hx]
    simp
  · intro k it hk
    have h0 := hnn k it hk
    rw [Cache.DeleteExpired_lookup, hk, Item.Expired_eq_true_iff]
    by_cases hp : it.Expiration > 0 ∧ now > it.Expiration
    · have hq : it.Expiration ≠ 0 ∧ it.Expiration < now := by omega
      simp [Option.filter, hp, hq]
    · have hq : ¬ (it.Expiration ≠ 0 ∧ it.Expiration < now) := by omega
      simp only [Option.filter, hp, decide_False, Bool.not_false, if_true]
      constructor
      · intro hc; exact absurd hc (by simp)
      · intro hc; exact absurd hc hq

/-- Witness for C17: two entries written at clock readings 0 and 3, the first
with TTL 5 and the second never expiring, swept at clock reading 10. -/
theorem sweep_agrees_with_Expired_witness :
    (∀ op ∈ [Op.Set "k" (some 1) 5 0, Op.Set "j" (some 2) NoExpiration 3],
      Op.insertsInRange 0 op) ∧
    (runOps [Op.Set "k" (some 1) 5 0, Op.Set "j" (some 2) NoExpiration 3]
      (Cache.empty Nat 0 0)).items.lookup "k" = some ⟨some 1, 5⟩ ∧
    (((runOps [Op.Set "k" (some 1) 5 0, Op.Set "j" (some 2) NoExpiration 3]
      (Cache.empty Nat 0 0)).DeleteExpired 10).items.lookup "k" = none ↔
        (⟨some 1, 5⟩ : Item Nat).Expired 10 = true) :=
  ⟨by decide, by decide,
   (sweep_agrees_with_Expired 0 0
      [Op.Set "k" (some 1) 5 0, Op.Set "j" (some 2) NoExpiration 3] 10 (by decide)).2
      "k" ⟨some 1, 5⟩ (by decide)⟩

/-- C17 fails for a write at a non-negative clock reading whose clock reading
plus TTL leaves the `int64` range: after `Set("k", 1, d)` with `d` the largest
`int64` at the clock reading 1700000000000000000 on the empty cache, the entry
has a negative `Expiration`; `Item.Expired` holds for it at that clock reading,
the sweep at that clock reading leaves it in the map, and `Get` reports the key
as not found. -/
theorem sweep_leaves_expired_entry :
    (0 : Int) ≤ 1700000000000000000 ∧
    ((runOps [Op.Set "k" (some 1) 9223372036854775807 1700000000000000000]
      (Cache.empty Nat 0 0)).DeleteExpired 1700000000000000000).items.lookup "k" =
      some ⟨some 1, -7523372036854775809⟩ ∧
    (⟨some 1, -7523372036854775809⟩ : Item Nat).Expired 1700000000000000000 = true ∧
    (((runOps [Op.Set "k" (some 1) 9223372036854775807 1700000000000000000]
      (Cache.empty Nat 0 0)).DeleteExpired 1700000000000000000).Get "k"
        1700000000000000000).2 = (none, false) := by
  decide

end GoCache
